import Mathlib

/-!
Shallow embedding of the Netaheuristics crate (metaheuristic optimization
library: improving-heuristic control loop, operator selection, termination
criteria, simulated annealing, builders), together with theorems settling
the specification claims C1..C10.

Floating-point objective values (`f32` in the source) are modelled as
rationals; the transcendental `exp` used by simulated annealing is
abstracted as a function parameter `expf`.
-/

namespace Netaheuristics

/-- Mirrors `Operator::find_best_neighbor` (src/lib.rs): iterate over the
neighborhood keeping the strictly best element seen so far; the Rust
`winner.expect("neighborhood was empty")` panic is modelled by `Option`,
`none` standing for the panic. -/
def find_best_neighbor {S β : Type} [LinearOrder β] (eval : S → β)
    (neighborhood : List S) : Option S :=
  neighborhood.foldl
    (fun winner neighbor =>
      match winner with
      | some x => if eval neighbor < eval x then some neighbor else some x
      | none => some neighbor)
    none

/-- Mirrors `compute_probability` (src/algorithms/sa.rs): `delta` is
`objective_incumbent - objective_candidate`; when `delta < 0` the probability
is `exp(-delta / temperature)`, otherwise `1`. The floating-point `exp` is
abstracted as the parameter `expf`. -/
def compute_probability (expf : ℚ → ℚ) (temperature objective_incumbent
    objective_candidate : ℚ) : ℚ :=
  let delta := objective_incumbent - objective_candidate
  if delta < 0 then expf (-delta / temperature) else 1

/-- Mirrors the decision logic of `SimulatedAnnealing::accept_candidate`
(src/algorithms/sa.rs), with the fresh uniform draw `r` and the current
temperature passed explicitly: accept if the candidate strictly improves on
the incumbent, otherwise accept iff `r <= compute_probability(...)`. -/
def sa_accept_decision (expf : ℚ → ℚ) (temperature r evalCandidate
    evalIncumbent : ℚ) : Bool :=
  if evalCandidate < evalIncumbent then true
  else if r ≤ compute_probability expf temperature evalIncumbent evalCandidate
    then true
  else false

/-- State of `IterationTerminator` (src/termination.rs): the target count `n`
and the `RefCell`-held counter `iteration`. -/
structure IterationTerminator where
  n : ℕ
  iteration : ℕ
  deriving DecidableEq, Repr

/-- Mirrors `IterationTerminator::new` (src/termination.rs): counter starts
at 0. -/
def IterationTerminator.new (iterations_max : ℕ) : IterationTerminator :=
  ⟨iterations_max, 0⟩

/-- Mirrors `IterationTerminator::terminate` (src/termination.rs): increment
the counter first, then return true iff the counter equals `n`. The `RefCell`
mutation is modelled by returning the updated state. -/
def IterationTerminator.terminate (t : IterationTerminator) :
    Bool × IterationTerminator :=
  let iteration := t.iteration + 1
  (iteration == t.n, ⟨t.n, iteration⟩)

/-- State of an `IterationTerminator` after `k` calls to `terminate`. -/
def IterationTerminator.callState (t : IterationTerminator) :
    ℕ → IterationTerminator
  | 0 => t
  | k + 1 => (t.callState k).terminate.2

/-- Result of the `k`-th call (1-indexed) to `terminate` on `t`. -/
def IterationTerminator.callResult (t : IterationTerminator) (k : ℕ) : Bool :=
  (t.callState (k - 1)).terminate.1

/-- Mirrors `OrTerminator::terminate` (src/termination.rs), i.e. Rust's
`self.terminators.iter().any(|x| x.terminate(solution))`, specialised to
iteration sub-criteria: `Iterator::any` short-circuits at the first `true`,
so sub-criteria after it are not evaluated and their counters (mutated
through `RefCell`) do not advance. The updated sub-criteria list is
returned alongside the result. -/
def orTerminate : List IterationTerminator → Bool × List IterationTerminator
  | [] => (false, [])
  | t :: ts =>
    let (b, t') := t.terminate
    if b then (true, t' :: ts)
    else
      let (b', ts') := orTerminate ts
      (b', t' :: ts')

/-- Mirrors `AndTerminator::terminate` (src/termination.rs), i.e. Rust's
`self.terminators.iter().all(|x| x.terminate(solution))`, specialised to
iteration sub-criteria: `Iterator::all` short-circuits at the first
`false`. -/
def andTerminate : List IterationTerminator → Bool × List IterationTerminator
  | [] => (true, [])
  | t :: ts =>
    let (b, t') := t.terminate
    if b then
      let (b', ts') := andTerminate ts
      (b', t' :: ts')
    else (false, t' :: ts)

/-- Sub-criteria states after `k` calls of `OrTerminator::terminate`. -/
def orCallState (ts : List IterationTerminator) :
    ℕ → List IterationTerminator
  | 0 => ts
  | k + 1 => (orTerminate (orCallState ts k)).2

/-- Result of the `k`-th call (1-indexed) of `OrTerminator::terminate`. -/
def orCallResult (ts : List IterationTerminator) (k : ℕ) : Bool :=
  (orTerminate (orCallState ts (k - 1))).1

/-- Sub-criteria states after `k` calls of `AndTerminator::terminate`. -/
def andCallState (ts : List IterationTerminator) :
    ℕ → List IterationTerminator
  | 0 => ts
  | k + 1 => (andTerminate (andCallState ts k)).2

/-- Result of the `k`-th call (1-indexed) of `AndTerminator::terminate`. -/
def andCallResult (ts : List IterationTerminator) (k : ℕ) : Bool :=
  (andTerminate (andCallState ts (k - 1))).1

/-- Least trip count of a nonempty list of trip counts (`0` for `[]`). -/
def minTrip : List ℕ → ℕ
  | [] => 0
  | [n] => n
  | n :: ns => min n (minTrip ns)

/-- Mirrors `ProposalEvaluation` (src/lib.rs). -/
inductive ProposalEvaluation where
  | ImprovedBest
  | Accept
  | Reject
  deriving DecidableEq, Repr

/-- State of `AdaptiveSelector` (src/selectors.rs): one weight per operator,
decay factor, index of the last selection, and the per-outcome reward
weights. The operator pool itself carries no logic and is omitted. -/
structure AdaptiveSelector where
  weights : List ℚ
  decay : ℚ
  index_last_selection : Option ℕ
  weight_improve_best : ℚ
  weight_accept : ℚ
  weight_reject : ℚ
  deriving DecidableEq, Repr

/-- Mirrors `AdaptiveSelector::default_weights` (src/selectors.rs) followed by
`n` calls of `.operator(..)`: every weight starts at 1, rewards are
`ImprovedBest = 3`, `Accept = 1`, `Reject = 0`, and no selection was made
yet. -/
def AdaptiveSelector.default_weights (n : ℕ) (decay : ℚ) : AdaptiveSelector :=
  { weights := List.replicate n 1
    decay := decay
    index_last_selection := none
    weight_improve_best := 3
    weight_accept := 1
    weight_reject := 0 }

/-- Reward constant chosen by `AdaptiveSelector::feedback`'s `match` on the
proposal status. -/
def AdaptiveSelector.rewardOf (s : AdaptiveSelector) :
    ProposalEvaluation → ℚ
  | .ImprovedBest => s.weight_improve_best
  | .Accept => s.weight_accept
  | .Reject => s.weight_reject

/-- Mirrors `AdaptiveSelector::feedback` (src/selectors.rs): if an operator
was selected before, update only its weight by
`w <- (1 - decay) * w + decay * reward`. -/
def AdaptiveSelector.feedback (s : AdaptiveSelector)
    (status : ProposalEvaluation) : AdaptiveSelector :=
  match s.index_last_selection with
  | some index =>
    let weight := s.rewardOf status
    let w := (1 - s.decay) * s.weights.getD index 0 + s.decay * weight
    { s with weights := s.weights.set index w }
  | none => s

/-- State of `SequentialSelector` (src/selectors.rs): operator count, cursor,
and best objective seen. The `f32::INFINITY` initial value of
`objective_best` is modelled by `none`; any finite objective compares
strictly below it. -/
structure SequentialSelector where
  n_operators : ℕ
  operator_index : ℕ
  objective_best : Option ℚ
  deriving DecidableEq, Repr

/-- Mirrors `SequentialSelector::new` (src/selectors.rs): cursor 0, best
objective `f32::INFINITY` (here `none`), with `n_operators` operators
added via `.option(..)`. -/
def SequentialSelector.new (n_operators : ℕ) : SequentialSelector :=
  ⟨n_operators, 0, none⟩

/-- The comparison `objective < *self.objective_best.borrow()` of
`SequentialSelector::select`, with `none` standing for the initial
`f32::INFINITY` (every finite objective is below it). -/
def improvesOn (objective : ℚ) : Option ℚ → Bool
  | none => true
  | some b => decide (objective < b)

/-- Mirrors `SequentialSelector::select` (src/selectors.rs): on improvement
record the new best and reset the cursor via `sub_assign(k)` (i.e. `k - k`);
otherwise advance the cursor to `(k + 1) % n_operators`. Returns the index
of the chosen operator together with the updated state. -/
def SequentialSelector.select (s : SequentialSelector) (objective : ℚ) :
    ℕ × SequentialSelector :=
  let k := s.operator_index
  if improvesOn objective s.objective_best then
    let s' := { s with objective_best := some objective,
                       operator_index := k - k }
    (s'.operator_index, s')
  else
    let s' := { s with operator_index := (k + 1) % s.n_operators }
    (s'.operator_index, s')

/-- Cursor positions returned by feeding a sequence of objective values to a
`SequentialSelector`, one `select` call per value. -/
def SequentialSelector.selectRun (s : SequentialSelector) :
    List ℚ → List ℕ
  | [] => []
  | o :: os =>
    let (i, s') := s.select o
    i :: s'.selectRun os

/-- The algorithm-specific hooks of the `ImprovingHeuristic` trait
(src/lib.rs). Interior mutability (`RefCell`-held rng, temperatures,
counters) is modelled by threading an explicit hook state `H` through
`propose_candidate`, `accept_candidate` and `should_terminate`; `evaluate`
is the solution's `Evaluate::evaluate`. -/
structure Hooks (S H β : Type) where
  propose_candidate : S → H → S × H
  accept_candidate : S → S → H → Bool × H
  should_terminate : S → H → Bool × H
  evaluate : S → β

/-- The mutable locals of `ImprovingHeuristic::optimize` (src/lib.rs)
together with the hook state. -/
structure LoopState (S H : Type) where
  incumbent : S
  best_solution : S
  hstate : H

/-- One iteration of the loop body of `ImprovingHeuristic::optimize`
(src/lib.rs): propose a candidate, replace `best_solution` iff the candidate
evaluates strictly below it, accept or reject the candidate as the next
incumbent, then evaluate the termination criteria on the (possibly updated)
incumbent. Returns the new state and whether the loop breaks. -/
def optimizeStep {S H β : Type} [LinearOrder β] (hk : Hooks S H β)
    (st : LoopState S H) : LoopState S H × Bool :=
  let pc := hk.propose_candidate st.incumbent st.hstate
  let candidate := pc.1
  let best' := if hk.evaluate candidate < hk.evaluate st.best_solution
    then candidate else st.best_solution
  let ac := hk.accept_candidate candidate st.incumbent pc.2
  let incumbent' := if ac.1 then candidate else st.incumbent
  let ts := hk.should_terminate incumbent' ac.2
  (⟨incumbent', best', ts.2⟩, ts.1)

/-- Loop state reached after `t` iterations of the `optimize` loop body
(whether or not an earlier iteration requested termination). -/
def optimizeIter {S H β : Type} [LinearOrder β] (hk : Hooks S H β)
    (st : LoopState S H) : ℕ → LoopState S H
  | 0 => st
  | t + 1 => (optimizeStep hk (optimizeIter hk st t)).1

/-- Mirrors `ImprovingHeuristic::optimize` (src/lib.rs) with explicit fuel:
run loop iterations until a `should_terminate` check passes and return
`best_solution`; `none` means the fuel ran out with the loop still
running (the Rust loop would simply continue). -/
def optimize {S H β : Type} [LinearOrder β] (hk : Hooks S H β) :
    ℕ → LoopState S H → Option S
  | 0, _ => none
  | fuel + 1, st =>
    let step := optimizeStep hk st
    if step.2 then some step.1.best_solution else optimize hk fuel step.1

/-- The initial loop state of `optimize`: `incumbent = initial` and
`best_solution = incumbent.clone()`. -/
def initState {S H : Type} (initial : S) (h : H) : LoopState S H :=
  ⟨initial, initial, h⟩

/-- Hooks whose termination criteria are a single `IterationTerminator`,
with `propose_candidate` and `accept_candidate` arbitrary functions over the
remaining hook state `R` (e.g. the rng): models plugging
`IterationTerminator` into any concrete algorithm of the crate. -/
def hooksWithIterationTerminator {S R β : Type} (eval : S → β)
    (pf : S → R → S × R) (af : S → S → R → Bool × R) :
    Hooks S (IterationTerminator × R) β where
  propose_candidate := fun s h =>
    let (c, r') := pf s h.2
    (c, (h.1, r'))
  accept_candidate := fun c i h =>
    let (b, r') := af c i h.2
    (b, (h.1, r'))
  should_terminate := fun _ h =>
    let (b, it') := h.1.terminate
    (b, (it', h.2))
  evaluate := eval

/-- State of `FactorSchedule` (src/algorithms/sa.rs): current temperature
and the constant cooling factor. -/
structure FactorSchedule where
  temperature : ℚ
  cooling_factor : ℚ
  deriving DecidableEq, Repr

/-- Mirrors `FactorSchedule::cool` (src/algorithms/sa.rs):
`T <- T * (1 - cooling_factor)`. -/
def FactorSchedule.cool (s : FactorSchedule) : FactorSchedule :=
  { s with temperature := s.temperature * (1 - s.cooling_factor) }

/-- Hook state of `SimulatedAnnealing` (src/algorithms/sa.rs): the
`RefCell`-held cooling schedule, the rng modelled as a stream of uniform
draws indexed by `drawIndex`, plus two instrumentation fields: `coolCount`
counts the `cool()` calls made so far and `acceptTemps` records the
temperature read by each `accept_candidate` call, in order. -/
structure SAState where
  schedule : FactorSchedule
  draws : ℕ → ℚ
  drawIndex : ℕ
  coolCount : ℕ
  acceptTemps : List ℚ

/-- Mirrors `SimulatedAnnealing::propose_candidate` (src/algorithms/sa.rs):
select an operator and shake the incumbent (abstracted as the deterministic
`shake` parameter), then call `self.cooling_schedule.cool()` — the cooling
happens inside the proposal, before the candidate is returned to the loop. -/
def saPropose {S : Type} (shake : S → S) : S → SAState → S × SAState :=
  fun incumbent st =>
    let candidate := shake incumbent
    (candidate, { st with schedule := st.schedule.cool,
                          coolCount := st.coolCount + 1 })

/-- Mirrors `SimulatedAnnealing::accept_candidate` (src/algorithms/sa.rs):
read the current temperature from the cooling schedule, draw a fresh `r`
from the rng, and decide via `sa_accept_decision`. The temperature that was
read is recorded in `acceptTemps`. -/
def saAccept {S : Type} (eval : S → ℚ) (expf : ℚ → ℚ) :
    S → S → SAState → Bool × SAState :=
  fun candidate incumbent st =>
    let temperature := st.schedule.temperature
    let r := st.draws st.drawIndex
    (sa_accept_decision expf temperature r (eval candidate) (eval incumbent),
     { st with drawIndex := st.drawIndex + 1,
               acceptTemps := st.acceptTemps ++ [temperature] })

/-- The `ImprovingHeuristic` hooks of `SimulatedAnnealing`
(src/algorithms/sa.rs), with the operator's `shake`, the exponential, and
the termination test abstracted as parameters. -/
def saHooks {S : Type} (eval : S → ℚ) (shake : S → S) (expf : ℚ → ℚ)
    (tf : S → Bool) : Hooks S SAState ℚ where
  propose_candidate := saPropose shake
  accept_candidate := saAccept eval expf
  should_terminate := fun s st => (tf s, st)
  evaluate := eval

/-- Initial SA hook state: a fresh `FactorSchedule` with temperature `t0` and
factor `f`, the draw stream `draws`, and empty instrumentation. -/
def saInitState (t0 f : ℚ) (draws : ℕ → ℚ) : SAState :=
  ⟨⟨t0, f⟩, draws, 0, 0, []⟩

/-- Fields of `VNSBuilder` (src/vns.rs): the operator list plus the three
optional components. Component types are abstract. -/
structure VNSBuilder (Op Selector Terminator Rng : Type) where
  operators : List Op
  selector : Option Selector
  terminator : Option Terminator
  rng : Option Rng

/-- Result of `VNSBuilder::build` (src/vns.rs). -/
structure VariableNeighborhoodSearch (Op Selector Terminator Rng : Type) where
  operators : List Op
  selector : Selector
  terminator : Terminator
  rng : Rng

/-- Mirrors `VNSBuilder::build` (src/vns.rs): `selector` and `terminator` are
unwrapped with `expect` (modelled by `Option` bind, `none` standing for the
panic), but `rng` is `self.rng.unwrap_or(Box::new(rand::thread_rng()))` — a
missing rng falls back to `thread_rng` (the `thread_rng` parameter here)
instead of failing. -/
def VNSBuilder.build {Op Selector Terminator Rng : Type} (thread_rng : Rng)
    (b : VNSBuilder Op Selector Terminator Rng) :
    Option (VariableNeighborhoodSearch Op Selector Terminator Rng) := do
  let selector ← b.selector
  let terminator ← b.terminator
  some ⟨b.operators, selector, terminator, b.rng.getD thread_rng⟩

/-- Fields of `SABuilder` (src/sa.rs). -/
structure SABuilder (Op Selector Terminator Rng : Type) where
  selector : Option Selector
  terminator : Option Terminator
  operators : List Op
  rng : Option Rng
  temperature : Option ℚ

/-- Result of `SABuilder::build` (src/sa.rs). -/
structure SimulatedAnnealing (Op Selector Terminator Rng : Type) where
  operators : List Op
  selector : Selector
  terminator : Terminator
  rng : Rng
  temperature : ℚ

/-- Mirrors `SABuilder::build` (src/sa.rs): `rng`, `selector`, `terminator`
and `temperature` are all unwrapped with `expect`; a missing one is a
construction-time panic, modelled by `none`. -/
def SABuilder.build {Op Selector Terminator Rng : Type}
    (b : SABuilder Op Selector Terminator Rng) :
    Option (SimulatedAnnealing Op Selector Terminator Rng) := do
  let rng ← b.rng
  let selector ← b.selector
  let terminator ← b.terminator
  let temperature ← b.temperature
  some ⟨b.operators, selector, terminator, rng, temperature⟩

/-- Fields of `LNSBuilder` (src/lns.rs). -/
structure LNSBuilder (Des Rep Selector Terminator Rng : Type) where
  destroyers : List Des
  repairers : List Rep
  terminator : Option Terminator
  selector_destroyer : Option Selector
  selector_repairer : Option Selector
  rng : Option Rng

/-- Result of `LNSBuilder::build` (src/lns.rs). -/
structure LargeNeighborhoodSearch (Des Rep Selector Terminator Rng : Type)
    where
  destroyers : List Des
  repairers : List Rep
  selector_destroyer : Selector
  selector_repairer : Selector
  terminator : Terminator
  rng : Rng

/-- Mirrors `LNSBuilder::build` (src/lns.rs): both selectors, the
terminator and the rng are all unwrapped with `expect`; a missing one is a
construction-time panic, modelled by `none`. -/
def LNSBuilder.build {Des Rep Selector Terminator Rng : Type}
    (b : LNSBuilder Des Rep Selector Terminator Rng) :
    Option (LargeNeighborhoodSearch Des Rep Selector Terminator Rng) := do
  let selector_destroyer ← b.selector_destroyer
  let selector_repairer ← b.selector_repairer
  let terminator ← b.terminator
  let rng ← b.rng
  some ⟨b.destroyers, b.repairers, selector_destroyer, selector_repairer,
        terminator, rng⟩

/-- Concrete hook instance used to exercise the generic loop theorems: the
solution is an integer scored by itself, each proposal decrements it, every
candidate is accepted and the terminator never fires. -/
def hooksDec : Hooks ℤ Unit ℤ where
  propose_candidate := fun s h => (s - 1, h)
  accept_candidate := fun _ _ h => (true, h)
  should_terminate := fun _ h => (false, h)
  evaluate := id

/-- Concrete stand-in for the floating-point exponential, used to exercise
the simulated-annealing theorems on inputs where the two candidate
temperatures give different acceptance probabilities: it maps `1` to `0`
and every other argument to `1`. -/
def expfW : ℚ → ℚ := fun x => if x = 1 then 0 else 1

/-- The fold of `find_best_neighbor` started from an existing winner never
returns `none`, is a member of the winner-or-list, and is minimal. -/
theorem find_best_neighbor_fold_spec {S β : Type} [LinearOrder β] (eval : S → β)
    (l : List S) (x : S) :
    ∃ w, (List.foldl
      (fun winner neighbor =>
        match winner with
        | some y => if eval neighbor < eval y then some neighbor else some y
        | none => some neighbor)
      (some x) l) = some w ∧ (w = x ∨ w ∈ l) ∧ eval w ≤ eval x ∧
      ∀ z ∈ l, eval w ≤ eval z := by
  induction l generalizing x with
  | nil => exact ⟨x, rfl, Or.inl rfl, le_refl _, by simp⟩
  | cons a t ih =>
    simp only [List.foldl_cons]
    by_cases h : eval a < eval x
    · simp only [h, if_pos]
      obtain ⟨w, hw, hmem, hle, hall⟩ := ih a
      refine ⟨w, hw, ?_, ?_, ?_⟩
      · rcases hmem with rfl | hm
        · exact Or.inr (List.mem_cons_self _ _)
        · exact Or.inr (List.mem_cons_of_mem _ hm)
      · exact le_of_lt (lt_of_le_of_lt hle h)
      · intro z hz
        rcases List.mem_cons.mp hz with rfl | hzt
        · exact hle
        · exact hall z hzt
    · simp only [h, if_neg, not_false_iff]
      obtain ⟨w, hw, hmem, hle, hall⟩ := ih x
      refine ⟨w, hw, ?_, hle, ?_⟩
      · rcases hmem with rfl | hm
        · exact Or.inl rfl
        · exact Or.inr (List.mem_cons_of_mem _ hm)
      · intro z hz
        rcases List.mem_cons.mp hz with rfl | hzt
        · exact le_trans hle (le_of_not_lt h)
        · exact hall z hzt

/-- C5: `find_best_neighbor` returns `none` (the "neighborhood was empty"
panic) exactly when the neighborhood is empty, and any returned element is
a member of the neighborhood with the lowest fitness. -/
theorem C5_find_best_neighbor_min_and_empty_panic {S β : Type} [LinearOrder β]
    (eval : S → β) (neighborhood : List S) :
    (find_best_neighbor eval neighborhood = none ↔ neighborhood = []) ∧
    (∀ w, find_best_neighbor eval neighborhood = some w →
      w ∈ neighborhood ∧ ∀ z ∈ neighborhood, eval w ≤ eval z) := by
  cases neighborhood with
  | nil => exact ⟨by simp [find_best_neighbor], by simp [find_best_neighbor]⟩
  | cons a t =>
    obtain ⟨w, hw, hmem, hle, hall⟩ := find_best_neighbor_fold_spec eval t a
    have hfb : find_best_neighbor eval (a :: t) = some w := by
      simpa [find_best_neighbor] using hw
    constructor
    · constructor
      · intro h
        rw [hfb] at h
        exact absurd h (by simp)
      · intro h
        exact absurd h (by simp)
    · intro w' hw'
      rw [hfb] at hw'
      injection hw' with hww
      subst hww
      constructor
      · rcases hmem with rfl | hm
        · exact List.mem_cons_self _ _
        · exact List.mem_cons_of_mem _ hm
      · intro z hz
        rcases List.mem_cons.mp hz with rfl | hzt
        · exact hle
        · exact hall z hzt

/-- Witness for C5: on the neighborhood `[2, 1, 3]` with identity fitness the
search returns `1`, which is a member and minimal, and the result is not
`none` since the list is nonempty. -/
theorem C5_find_best_neighbor_min_and_empty_panic_witness :
    (1 : ℤ) ∈ [2, 1, 3] ∧ ∀ z ∈ [(2 : ℤ), 1, 3], (1 : ℤ) ≤ z :=
  (C5_find_best_neighbor_min_and_empty_panic (id : ℤ → ℤ) [2, 1, 3]).2 1 rfl

/-- After `k` calls on a fresh `IterationTerminator`, the counter equals
`k`. -/
theorem iterationTerminator_callState (n k : ℕ) :
    (IterationTerminator.new n).callState k = ⟨n, k⟩ := by
  induction k with
  | zero => rfl
  | succ k ih =>
    simp [IterationTerminator.callState, ih, IterationTerminator.terminate]

/-- The `k`-th call on a fresh `IterationTerminator` with target `n` returns
true exactly when `k = n`, for `k ≥ 1`. -/
theorem iterationTerminator_callResult (n k : ℕ) (hk : 1 ≤ k) :
    (IterationTerminator.new n).callResult k = decide (k = n) := by
  unfold IterationTerminator.callResult
  rw [iterationTerminator_callState]
  simp only [IterationTerminator.terminate]
  rw [Nat.sub_add_cancel hk]
  by_cases h : k = n <;> simp [h]

/-- C3 (amended): for `n ≥ 1`, `IterationTerminator::new(n).terminate`
returns false on each of the first `n - 1` calls, true on exactly the
`n`-th call, and false again on every call after the `n`-th (the counter
keeps incrementing past `n` and the `counter == n` test never holds
again). -/
theorem C3_iteration_terminator_trips_only_at_n (n k : ℕ) (_hn : 1 ≤ n)
    (hk : 1 ≤ k) :
    (IterationTerminator.new n).callResult k = decide (k = n) :=
  iterationTerminator_callResult n k hk

/-- Witness for C3: with `n = 2`, calls 1, 2 and 3 return false, true and
false respectively. -/
theorem C3_iteration_terminator_trips_only_at_n_witness :
    1 ≤ 2 ∧ (IterationTerminator.new 2).callResult 1 = decide (1 = 2) ∧
      (IterationTerminator.new 2).callResult 2 = decide (2 = 2) ∧
      (IterationTerminator.new 2).callResult 3 = decide (3 = 2) :=
  ⟨by decide, C3_iteration_terminator_trips_only_at_n 2 1 (by decide)
      (by decide),
    C3_iteration_terminator_trips_only_at_n 2 2 (by decide) (by decide),
    C3_iteration_terminator_trips_only_at_n 2 3 (by decide) (by decide)⟩

/-- Counterexample for C3 as stated: the claim says termination is a one-way
ratchet, returning true on every call after the `n`-th as well; but with
`n = 1` the second call returns false (the counter is `2` and `2 == 1`
fails). -/
theorem C3_counterexample_not_a_ratchet :
    (IterationTerminator.new 1).callResult 2 = false := by decide

/-- One optimize-loop step under an `IterationTerminator`: the break flag is
the terminator's `counter + 1 == n` test, and the terminator state inside
the hook state advances its counter by one. -/
theorem hooksIterationTerminator_step {S R β : Type} [LinearOrder β]
    (eval : S → β) (pf : S → R → S × R) (af : S → S → R → Bool × R)
    (st : LoopState S (IterationTerminator × R)) :
    (optimizeStep (hooksWithIterationTerminator eval pf af) st).2 =
      (st.hstate.1.iteration + 1 == st.hstate.1.n) ∧
    (optimizeStep (hooksWithIterationTerminator eval pf af) st).1.hstate.1 =
      ⟨st.hstate.1.n, st.hstate.1.iteration + 1⟩ := by
  constructor <;>
    simp [optimizeStep, hooksWithIterationTerminator,
      IterationTerminator.terminate]

/-- C10: with target count `0`, `IterationTerminator::terminate` returns
false on every call (the counter is incremented before the comparison and
never equals 0 again), and consequently an `optimize` run whose sole
termination criterion is `IterationTerminator::new(0)` never stops: for
every fuel bound the loop is still running. -/
theorem C10_iteration_terminator_zero_never_stops {S R β : Type}
    [LinearOrder β] (eval : S → β) (pf : S → R → S × R)
    (af : S → S → R → Bool × R) (st : LoopState S (IterationTerminator × R))
    (h0 : st.hstate.1.n = 0) :
    (∀ k, 1 ≤ k → (IterationTerminator.new 0).callResult k = false) ∧
    (∀ fuel, optimize (hooksWithIterationTerminator eval pf af) fuel st =
      none) := by
  constructor
  · intro k hk
    rw [iterationTerminator_callResult 0 k hk]
    simp [Nat.pos_iff_ne_zero.mp hk]
  · intro fuel
    induction fuel generalizing st with
    | zero => rfl
    | succ fuel ih =>
      obtain ⟨hstop, hstate⟩ :=
        hooksIterationTerminator_step eval pf af st
      have hfalse :
          (optimizeStep (hooksWithIterationTerminator eval pf af) st).2 =
            false := by
        rw [hstop, h0]
        simp
      unfold optimize
      simp only [hfalse, Bool.false_eq_true, if_false]
      exact ih _ (by rw [hstate, h0])

/-- Witness for C10: the concrete decrementing hooks over the integers with
an `IterationTerminator::new(0)` as sole criterion make no progress towards
termination: with fuel 4 the run is still unfinished, and the first call of
the terminator returns false. -/
theorem C10_iteration_terminator_zero_never_stops_witness :
    (IterationTerminator.new 0).callResult 1 = false ∧
    optimize
      (hooksWithIterationTerminator (id : ℤ → ℤ) (fun s r => (s - 1, r))
        (fun _ _ r => (true, r)))
      4 (initState (5 : ℤ) (IterationTerminator.new 0, ())) = none := by
  have h := C10_iteration_terminator_zero_never_stops (id : ℤ → ℤ)
    (fun s r => (s - 1, r)) (fun _ _ r => (true, r))
    (initState (5 : ℤ) (IterationTerminator.new 0, ())) rfl
  exact ⟨h.1 1 (by decide), h.2 4⟩

/-- The `best_solution` computed by one loop step is the proposed candidate
if it evaluates strictly below the current best, and the unchanged current
best otherwise. -/
theorem optimizeStep_best {S H β : Type} [LinearOrder β] (hk : Hooks S H β)
    (st : LoopState S H) :
    (optimizeStep hk st).1.best_solution =
      if hk.evaluate (hk.propose_candidate st.incumbent st.hstate).1 <
          hk.evaluate st.best_solution
      then (hk.propose_candidate st.incumbent st.hstate).1
      else st.best_solution := rfl

/-- C1: in every run of `ImprovingHeuristic::optimize`, the tracked best
solution is monotonically non-worsening — after each loop iteration its
fitness is at most the previous one's — and `best_solution` is replaced only
when the proposed candidate's fitness is strictly lower than the current
best's; moreover any best solution returned by `optimize` evaluates at most
the initial best. -/
theorem C1_optimize_best_monotone {S H β : Type} [LinearOrder β]
    (hk : Hooks S H β) (st : LoopState S H) :
    (hk.evaluate (optimizeStep hk st).1.best_solution ≤
      hk.evaluate st.best_solution) ∧
    ((optimizeStep hk st).1.best_solution ≠ st.best_solution →
      (optimizeStep hk st).1.best_solution =
        (hk.propose_candidate st.incumbent st.hstate).1 ∧
      hk.evaluate (hk.propose_candidate st.incumbent st.hstate).1 <
        hk.evaluate st.best_solution) ∧
    (∀ t : ℕ, hk.evaluate (optimizeIter hk st (t + 1)).best_solution ≤
      hk.evaluate (optimizeIter hk st t).best_solution) ∧
    (∀ fuel r, optimize hk fuel st = some r →
      hk.evaluate r ≤ hk.evaluate st.best_solution) := by
  have step_le : ∀ s : LoopState S H,
      hk.evaluate (optimizeStep hk s).1.best_solution ≤
        hk.evaluate s.best_solution := by
    intro s
    rw [optimizeStep_best]
    split
    · exact le_of_lt (by assumption)
    · exact le_rfl
  refine ⟨step_le st, ?_, ?_, ?_⟩
  · intro hne
    rw [optimizeStep_best] at hne ⊢
    by_cases h : hk.evaluate (hk.propose_candidate st.incumbent st.hstate).1 <
        hk.evaluate st.best_solution
    · rw [if_pos h]
      exact ⟨rfl, h⟩
    · rw [if_neg h] at hne
      exact absurd rfl hne
  · intro t
    exact step_le (optimizeIter hk st t)
  · intro fuel
    induction fuel generalizing st with
    | zero => intro r h; exact absurd h (by simp [optimize])
    | succ fuel ih =>
      intro r h
      unfold optimize at h
      by_cases hstop : (optimizeStep hk st).2 = true
      · simp only [hstop, if_true] at h
        injection h with h
        rw [← h]
        exact step_le st
      · simp only [hstop, if_false] at h
        exact le_trans (ih _ r h) (step_le st)

/-- Witness for C1: with the decrementing hooks over the integers and
initial solution 5, the first step replaces the best (5) by the proposed
candidate 4, whose fitness is strictly lower. -/
theorem C1_optimize_best_monotone_witness :
    (optimizeStep hooksDec (initState (5 : ℤ) ())).1.best_solution =
      (hooksDec.propose_candidate (initState (5 : ℤ) ()).incumbent
        (initState (5 : ℤ) ()).hstate).1 ∧
    hooksDec.evaluate (hooksDec.propose_candidate
        (initState (5 : ℤ) ()).incumbent (initState (5 : ℤ) ()).hstate).1 <
      hooksDec.evaluate (initState (5 : ℤ) ()).best_solution :=
  (C1_optimize_best_monotone hooksDec (initState (5 : ℤ) ())).2.1 (by decide)

/-- Hook-state evolution of one simulated-annealing loop step: the proposal
cools the schedule and increments the cool counter, and the acceptance
decision then reads — and records — the already-cooled temperature. -/
theorem saStep_hstate {S : Type} (eval : S → ℚ) (shake : S → S)
    (expf : ℚ → ℚ) (tf : S → Bool) (st : LoopState S SAState) :
    (optimizeStep (saHooks eval shake expf tf) st).1.hstate =
      { schedule := st.hstate.schedule.cool
        draws := st.hstate.draws
        drawIndex := st.hstate.drawIndex + 1
        coolCount := st.hstate.coolCount + 1
        acceptTemps :=
          st.hstate.acceptTemps ++ [st.hstate.schedule.cool.temperature] } :=
  rfl

/-- Hook state after `t` iterations of the simulated-annealing loop from a
fresh schedule: the temperature has decayed `t` times, `cool` ran exactly
`t` times, one draw was consumed per iteration, and the `j`-th acceptance
decision (0-indexed) read the post-cooling temperature
`t0 * (1 - f) ^ (j + 1)`. -/
theorem saIter_hstate {S : Type} (eval : S → ℚ) (shake : S → S)
    (expf : ℚ → ℚ) (tf : S → Bool) (t0 f : ℚ) (draws : ℕ → ℚ) (i0 : S)
    (t : ℕ) :
    (optimizeIter (saHooks eval shake expf tf)
        (initState i0 (saInitState t0 f draws)) t).hstate =
      { schedule := ⟨t0 * (1 - f) ^ t, f⟩
        draws := draws
        drawIndex := t
        coolCount := t
        acceptTemps :=
          (List.range t).map (fun j => t0 * (1 - f) ^ (j + 1)) } := by
  induction t with
  | zero =>
    simp [optimizeIter, initState, saInitState]
  | succ t ih =>
    have hstep : optimizeIter (saHooks eval shake expf tf)
        (initState i0 (saInitState t0 f draws)) (t + 1) =
      (optimizeStep (saHooks eval shake expf tf)
        (optimizeIter (saHooks eval shake expf tf)
          (initState i0 (saInitState t0 f draws)) t)).1 := rfl
    rw [hstep, saStep_hstate, ih]
    simp [FactorSchedule.cool, List.range_succ, pow_succ, mul_assoc]

/-- C8 (amended): when simulated annealing uses a `CoolingSchedule`,
`cool()` is invoked exactly once per proposal (once per loop iteration), but
the acceptance decision of that same iteration compares against the
post-cooling temperature: `propose_candidate` calls `cool()` before
returning, so the `t`-th acceptance (1-indexed) reads
`t0 * (1 - f) ^ t`, not the pre-cooling value `t0 * (1 - f) ^ (t - 1)`. -/
theorem C8_cool_once_per_proposal_post_cooling_acceptance {S : Type}
    (eval : S → ℚ) (shake : S → S) (expf : ℚ → ℚ) (tf : S → Bool)
    (t0 f : ℚ) (draws : ℕ → ℚ) (i0 : S) (t : ℕ) :
    ((optimizeStep (saHooks eval shake expf tf)
        (optimizeIter (saHooks eval shake expf tf)
          (initState i0 (saInitState t0 f draws)) t)).1.hstate.coolCount =
      (optimizeIter (saHooks eval shake expf tf)
        (initState i0 (saInitState t0 f draws)) t).hstate.coolCount + 1) ∧
    ((optimizeIter (saHooks eval shake expf tf)
        (initState i0 (saInitState t0 f draws)) t).hstate.coolCount = t) ∧
    ((optimizeIter (saHooks eval shake expf tf)
        (initState i0 (saInitState t0 f draws)) t).hstate.acceptTemps =
      (List.range t).map (fun j => t0 * (1 - f) ^ (j + 1))) := by
  refine ⟨?_, ?_, ?_⟩
  · rw [saStep_hstate]
  · rw [saIter_hstate]
  · rw [saIter_hstate]

/-- Counterexample for C8 as stated: concrete run with initial temperature
2 and cooling factor 1/2, identity fitness, a shake that worsens the
solution by 1, and the draw 1/2. The first iteration's acceptance reads
temperature 1 — the post-cooling value `2 * (1 - 1/2)` — not the
pre-cooling temperature 2; and the decision differs: with the recorded
temperature 1 the candidate is rejected (the incumbent stays 0), while
deciding with the pre-cooling temperature 2 would accept it. -/
theorem C8_counterexample_acceptance_uses_cooled_temperature :
    ((optimizeStep (saHooks (id : ℚ → ℚ) (fun x => x + 1) expfW
        (fun _ => false))
        (initState (0 : ℚ) (saInitState 2 (1/2)
          (fun _ => 1/2)))).1.hstate.acceptTemps = [1]) ∧
    ((2 : ℚ) * (1 - 1/2) = 1) ∧
    ((optimizeStep (saHooks (id : ℚ → ℚ) (fun x => x + 1) expfW
        (fun _ => false))
        (initState (0 : ℚ) (saInitState 2 (1/2)
          (fun _ => 1/2)))).1.incumbent = 0) ∧
    (sa_accept_decision expfW 2 (1/2) 1 0 = true) := by
  refine ⟨?_, by norm_num, ?_, ?_⟩
  · simp [optimizeStep, saHooks, saPropose, saAccept, initState, saInitState,
      FactorSchedule.cool]
    norm_num
  · simp [optimizeStep, saHooks, saPropose, saAccept, initState, saInitState,
      FactorSchedule.cool, sa_accept_decision, compute_probability, expfW]
    norm_num
  · simp [sa_accept_decision, compute_probability, expfW]
    norm_num

/-- C2: in `SimulatedAnnealing::accept_candidate`, an improving candidate is
always accepted, and a non-improving candidate is accepted iff the fresh
uniform draw `r` satisfies `r <= exp(-delta / T)` with
`delta = incumbent.evaluate() - candidate.evaluate()` and `T` the current
temperature. The exponential is any function `expf` with `expf 0 = 1` (as
the real `exp` has); for `delta < 0` the code computes exactly
`expf (-delta / T)` and for `delta = 0` it uses the constant 1. -/
theorem C2_sa_metropolis_acceptance (expf : ℚ → ℚ)
    (temperature r evalCandidate evalIncumbent : ℚ) (hexp : expf 0 = 1) :
    (evalCandidate < evalIncumbent →
      sa_accept_decision expf temperature r evalCandidate evalIncumbent =
        true) ∧
    (¬ evalCandidate < evalIncumbent →
      (sa_accept_decision expf temperature r evalCandidate evalIncumbent =
          true ↔
        r ≤ expf (-(evalIncumbent - evalCandidate) / temperature))) := by
  constructor
  · intro h
    simp [sa_accept_decision, h]
  · intro h
    have hle : evalIncumbent ≤ evalCandidate := le_of_not_lt h
    simp only [sa_accept_decision, compute_probability]
    rw [if_neg h]
    by_cases hd : evalIncumbent - evalCandidate < 0
    · simp only [if_pos hd]
      by_cases hr :
          r ≤ expf (-(evalIncumbent - evalCandidate) / temperature) <;>
        simp [hr]
    · have heq : evalIncumbent - evalCandidate = 0 := by
        have h0 : 0 ≤ evalIncumbent - evalCandidate := le_of_not_lt hd
        have h1 : evalIncumbent - evalCandidate ≤ 0 := sub_nonpos.mpr hle
        linarith
      simp only [if_neg hd, heq, neg_zero, zero_div, hexp]
      by_cases hr : r ≤ (1 : ℚ) <;> simp [hr]

/-- Witness for C2: with the constant exponential 1, temperature 1 and draw
1/2, the improving pair (candidate 0, incumbent 1) is accepted, and the
non-improving pair (candidate 1, incumbent 0) is accepted because
`1/2 <= expf(-(0 - 1)/1) = 1`. -/
theorem C2_sa_metropolis_acceptance_witness :
    sa_accept_decision (fun _ => (1 : ℚ)) 1 (1/2) 0 1 = true ∧
    sa_accept_decision (fun _ => (1 : ℚ)) 1 (1/2) 1 0 = true :=
  ⟨(C2_sa_metropolis_acceptance (fun _ => (1 : ℚ)) 1 (1/2) 0 1 rfl).1
      (by norm_num),
   ((C2_sa_metropolis_acceptance (fun _ => (1 : ℚ)) 1 (1/2) 1 0 rfl).2
      (by norm_num)).mpr (by norm_num)⟩

/-- C6: `AdaptiveSelector::feedback` updates only the weight of the
last-selected operator, by `w <- (1 - decay) * w + decay * reward` with
default rewards ImprovedBest = 3, Accept = 1, Reject = 0, leaving every
other weight unchanged; and the scripted scenario holds: starting weights
`[1, 1, 1]` with decay 1, selecting index 0 then feeding ImprovedBest
yields `[3, 1, 1]`, and then feeding Accept on index 2 again yields
`[3, 1, 1]`. -/
theorem C6_adaptive_feedback_updates_only_last_selected :
    (∀ (s : AdaptiveSelector) (status : ProposalEvaluation) (i : ℕ),
      s.index_last_selection = some i → i < s.weights.length →
      ((s.feedback status).weights.get? i =
        some ((1 - s.decay) * s.weights.getD i 0 +
          s.decay * s.rewardOf status) ∧
       ∀ j, j ≠ i → (s.feedback status).weights.get? j =
         s.weights.get? j)) ∧
    ((AdaptiveSelector.default_weights 3 1).weights = [1, 1, 1] ∧
      (AdaptiveSelector.default_weights 3 1).weight_improve_best = 3 ∧
      (AdaptiveSelector.default_weights 3 1).weight_accept = 1 ∧
      (AdaptiveSelector.default_weights 3 1).weight_reject = 0) ∧
    (({ AdaptiveSelector.default_weights 3 1 with
        index_last_selection := some 0 }.feedback
          ProposalEvaluation.ImprovedBest).weights = [3, 1, 1]) ∧
    (({ { AdaptiveSelector.default_weights 3 1 with
          index_last_selection := some 0 }.feedback
            ProposalEvaluation.ImprovedBest with
        index_last_selection := some 2 }.feedback
          ProposalEvaluation.Accept).weights = [3, 1, 1]) := by
  refine ⟨?_,
    by norm_num [AdaptiveSelector.default_weights, List.replicate],
    by norm_num [AdaptiveSelector.feedback, AdaptiveSelector.default_weights,
      AdaptiveSelector.rewardOf, List.getD, List.set, List.replicate],
    by norm_num [AdaptiveSelector.feedback, AdaptiveSelector.default_weights,
      AdaptiveSelector.rewardOf, List.getD, List.set, List.replicate]⟩
  intro s status i hsel hlen
  simp only [AdaptiveSelector.feedback, hsel]
  constructor
  · exact List.get?_set_eq_of_lt _ hlen
  · intro j hj
    exact List.get?_set_ne _ _ (fun h => hj h.symm)

/-- Witness for C6: in the state with weights `[1, 1, 1]`, decay 1 and last
selection index 0, feedback ImprovedBest sets weight 0 to
`(1 - 1) * 1 + 1 * 3` and leaves weight 1 unchanged. -/
theorem C6_adaptive_feedback_updates_only_last_selected_witness :
    (({ AdaptiveSelector.default_weights 3 1 with
        index_last_selection := some 0 } : AdaptiveSelector).feedback
          ProposalEvaluation.ImprovedBest).weights.get? 0 =
      some ((1 - (1 : ℚ)) * 1 + 1 * 3) ∧
    (({ AdaptiveSelector.default_weights 3 1 with
        index_last_selection := some 0 } : AdaptiveSelector).feedback
          ProposalEvaluation.ImprovedBest).weights.get? 1 =
      ([1, 1, 1] : List ℚ).get? 1 := by
  have h := C6_adaptive_feedback_updates_only_last_selected.1
    { AdaptiveSelector.default_weights 3 1 with
      index_last_selection := some 0 }
    ProposalEvaluation.ImprovedBest 0 rfl (by decide)
  refine ⟨?_, ?_⟩
  · have h0 := h.1
    rw [h0]
    norm_num [AdaptiveSelector.default_weights, AdaptiveSelector.rewardOf,
      List.getD]
  · have h1 := h.2 1 (by decide)
    rw [h1]
    rfl

/-- An improving call of `SequentialSelector::select` records the new best
objective and resets the cursor to 0 (`sub_assign(k)`). -/
theorem seq_select_improve (s : SequentialSelector) (obj : ℚ)
    (h : improvesOn obj s.objective_best = true) :
    s.select obj = (0, ⟨s.n_operators, 0, some obj⟩) := by
  simp [SequentialSelector.select, h]

/-- A non-improving call of `SequentialSelector::select` keeps the best
objective and advances the cursor by 1 modulo the operator count. -/
theorem seq_select_no_improve (s : SequentialSelector) (obj : ℚ)
    (h : improvesOn obj s.objective_best = false) :
    s.select obj = ((s.operator_index + 1) % s.n_operators,
      ⟨s.n_operators, (s.operator_index + 1) % s.n_operators,
        s.objective_best⟩) := by
  simp [SequentialSelector.select, h]

/-- Feeding `k` copies of the already-recorded best objective `c` from
cursor `i` advances the cursor by one (mod the operator count) on every
call. -/
theorem seq_selectRun_const (n : ℕ) (c : ℚ) (k : ℕ) :
    ∀ i : ℕ, SequentialSelector.selectRun ⟨n, i, some c⟩
        (List.replicate k c) =
      (List.range k).map (fun j => (i + j + 1) % n) := by
  induction k with
  | zero => intro i; rfl
  | succ k ih =>
    intro i
    have hni : improvesOn c (some c) = false := by
      simp [improvesOn]
    rw [List.replicate_succ]
    show (SequentialSelector.select ⟨n, i, some c⟩ c).1 ::
      SequentialSelector.selectRun
        (SequentialSelector.select ⟨n, i, some c⟩ c).2
        (List.replicate k c) = _
    rw [seq_select_no_improve ⟨n, i, some c⟩ c hni]
    simp only [ih ((i + 1) % n), List.range_succ_eq_map, List.map_cons,
      List.map_map]
    congr 1
    apply List.map_congr_left
    intro j _
    show ((i + 1) % n + j + 1) % n = (i + (j + 1) + 1) % n
    rw [add_assoc ((i + 1) % n) j 1, Nat.mod_add_mod]
    congr 1
    omega

/-- Feeding a strictly decreasing objective sequence keeps the cursor at 0
on every call: each objective improves on the recorded best, which is
either still the initial infinity or the previous (larger) objective. -/
theorem seq_selectRun_decreasing (n : ℕ) :
    ∀ (objs : List ℚ) (b : Option ℚ), List.Chain' (· > ·) objs →
      (∀ x v, objs.head? = some x → b = some v → x < v) →
      SequentialSelector.selectRun ⟨n, 0, b⟩ objs =
        List.replicate objs.length 0 := by
  intro objs
  induction objs with
  | nil => intro b _ _; rfl
  | cons o os ih =>
    intro b hchain hlt
    have himp : improvesOn o b = true := by
      cases b with
      | none => rfl
      | some v => simpa [improvesOn] using hlt o v rfl rfl
    show (SequentialSelector.select ⟨n, 0, b⟩ o).1 ::
      SequentialSelector.selectRun (SequentialSelector.select ⟨n, 0, b⟩ o).2
        os = _
    rw [seq_select_improve ⟨n, 0, b⟩ o himp]
    obtain ⟨hhead, htail⟩ := List.chain'_cons'.mp hchain
    rw [List.length_cons, List.replicate_succ]
    refine congrArg (List.cons 0) (ih (some o) htail ?_)
    intro x v hx hv
    injection hv with hv
    subst hv
    exact hhead x hx

/-- C7 (amended): `SequentialSelector::select` starts with cursor 0 and best
objective +infinity; a call whose objective strictly improves on the
tracked best records it and resets the cursor to 0, otherwise the cursor
advances by 1 modulo the operator count. Hence a strictly decreasing
objective sequence keeps the cursor at 0 on every call, and a constant
objective sequence keeps the cursor at 0 on the first call (which improves
on the initial +infinity) and advances it by 1 (mod operator count) on
each call after the first. -/
theorem C7_sequential_selector_cursor (n k : ℕ) (c : ℚ)
    (s : SequentialSelector) (obj : ℚ) (objs : List ℚ)
    (hdec : List.Chain' (· > ·) objs) :
    ((SequentialSelector.new n).operator_index = 0 ∧
      (SequentialSelector.new n).objective_best = none) ∧
    (improvesOn obj s.objective_best = true →
      s.select obj = (0, ⟨s.n_operators, 0, some obj⟩)) ∧
    (improvesOn obj s.objective_best = false →
      s.select obj = ((s.operator_index + 1) % s.n_operators,
        ⟨s.n_operators, (s.operator_index + 1) % s.n_operators,
          s.objective_best⟩)) ∧
    ((SequentialSelector.new n).selectRun objs =
      List.replicate objs.length 0) ∧
    ((SequentialSelector.new n).selectRun (List.replicate (k + 1) c) =
      0 :: (List.range k).map (fun j => (j + 1) % n)) := by
  refine ⟨⟨rfl, rfl⟩, seq_select_improve s obj, seq_select_no_improve s obj,
    ?_, ?_⟩
  · exact seq_selectRun_decreasing n objs none hdec
      (fun x v _ hv => by cases hv)
  · rw [List.replicate_succ]
    show (SequentialSelector.select (SequentialSelector.new n) c).1 ::
      SequentialSelector.selectRun
        (SequentialSelector.select (SequentialSelector.new n) c).2
        (List.replicate k c) = _
    rw [seq_select_improve (SequentialSelector.new n) c rfl]
    rw [show (SequentialSelector.new n).n_operators = n from rfl]
    rw [seq_selectRun_const n c k 0]
    simp

/-- Witness for C7: an improving call from cursor 1 resets to cursor 0, and
the constant sequence `[5, 5, 5]` on 3 operators yields the cursor
sequence `[0, 1, 2]`. -/
theorem C7_sequential_selector_cursor_witness :
    ((⟨3, 1, some (5 : ℚ)⟩ : SequentialSelector).select 4 =
      (0, ⟨3, 0, some 4⟩)) ∧
    ((SequentialSelector.new 3).selectRun (List.replicate 3 (5 : ℚ)) =
      0 :: (List.range 2).map (fun j => (j + 1) % 3)) := by
  have h := C7_sequential_selector_cursor 3 2 (5 : ℚ)
    (⟨3, 1, some (5 : ℚ)⟩ : SequentialSelector) 4 [] (by simp)
  exact ⟨h.2.1 (by norm_num [improvesOn]), h.2.2.2.2⟩

/-- Counterexample for C7 as stated: from the fresh state (cursor 0, best
+infinity) the constant sequence `[5, 5]` yields cursors `[0, 1]` — the
first call improves on +infinity and keeps the cursor at 0, whereas the
claim's "advances the cursor by 1 (mod operator count) on each call"
predicts `[1, 2]`. -/
theorem C7_counterexample_first_constant_call_resets :
    (SequentialSelector.new 3).selectRun [(5 : ℚ), 5] = [0, 1] ∧
    ([0, 1] : List ℕ) ≠ [(0 + 1) % 3, (1 + 1) % 3] := by
  constructor
  · show (SequentialSelector.select (SequentialSelector.new 3) 5).1 ::
      SequentialSelector.selectRun
        (SequentialSelector.select (SequentialSelector.new 3) 5).2 [5] = _
    rw [seq_select_improve (SequentialSelector.new 3) 5 rfl]
    show (0 : ℕ) :: (SequentialSelector.select ⟨3, 0, some 5⟩ 5).1 ::
      SequentialSelector.selectRun
        (SequentialSelector.select ⟨3, 0, some 5⟩ 5).2 [] = _
    rw [seq_select_no_improve ⟨3, 0, some 5⟩ 5 (by simp [improvesOn])]
    rfl
  · decide

/-- `minTrip` is a lower bound of the trip counts in the list. -/
theorem minTrip_le (ns : List ℕ) (n : ℕ) (hn : n ∈ ns) : minTrip ns ≤ n := by
  induction ns with
  | nil => cases hn
  | cons a t ih =>
    cases t with
    | nil =>
      rcases List.mem_singleton.mp hn with rfl
      exact le_refl _
    | cons b u =>
      rcases List.mem_cons.mp hn with rfl | hmem
      · exact min_le_left _ _
      · exact le_trans (min_le_right _ _) (ih hmem)

/-- `minTrip` of a nonempty list is attained by one of its elements. -/
theorem minTrip_mem (ns : List ℕ) (hne : ns ≠ []) : minTrip ns ∈ ns := by
  induction ns with
  | nil => exact absurd rfl hne
  | cons a t ih =>
    cases t with
    | nil => exact List.mem_singleton.mpr rfl
    | cons b u =>
      rcases le_total a (minTrip (b :: u)) with h | h
      · rw [show minTrip (a :: b :: u) = min a (minTrip (b :: u)) from rfl,
          min_eq_left h]
        exact List.mem_cons_self _ _
      · rw [show minTrip (a :: b :: u) = min a (minTrip (b :: u)) from rfl,
          min_eq_right h]
        exact List.mem_cons_of_mem _ (ih (by simp))

/-- On a uniform state (all counters equal to `j`), one `OrTerminator`
call returns true iff some sub-criterion has trip count `j + 1`. -/
theorem orTerminate_uniform_result (ns : List ℕ) (j : ℕ) :
    (orTerminate (ns.map fun n => ⟨n, j⟩)).1 =
      ns.any (fun n => j + 1 == n) := by
  induction ns with
  | nil => rfl
  | cons a t ih =>
    simp only [List.map_cons, orTerminate, IterationTerminator.terminate]
    by_cases h : (j + 1 == a) = true
    · simp [h]
    · simp only [Bool.not_eq_true] at h
      simp [h, ih]

/-- On a uniform state where no sub-criterion trips, one `OrTerminator`
call evaluates every sub-criterion, advancing every counter. -/
theorem orTerminate_uniform_state (ns : List ℕ) (j : ℕ)
    (h : ∀ n ∈ ns, j + 1 ≠ n) :
    (orTerminate (ns.map fun n => ⟨n, j⟩)).2 =
      ns.map (fun n => ⟨n, j + 1⟩) := by
  induction ns with
  | nil => rfl
  | cons a t ih =>
    have ha : (j + 1 == a) = false := by
      simpa using h a (List.mem_cons_self _ _)
    simp only [List.map_cons, orTerminate, IterationTerminator.terminate]
    simp [ha, ih (fun n hn => h n (List.mem_cons_of_mem _ hn))]

/-- As long as every trip count exceeds `k`, the sub-criteria of a fresh
`OrTerminator` all have counter `k` after `k` calls. -/
theorem orCallState_uniform (ns : List ℕ) (k : ℕ)
    (h : ∀ n ∈ ns, k < n) :
    orCallState (ns.map IterationTerminator.new) k =
      ns.map (fun n => ⟨n, k⟩) := by
  induction k with
  | zero => rfl
  | succ k ih =>
    have hstate := ih (fun n hn => lt_trans (Nat.lt_succ_self k) (h n hn))
    show (orTerminate (orCallState (ns.map IterationTerminator.new) k)).2 = _
    rw [hstate]
    exact orTerminate_uniform_state ns k
      (fun n hn => Nat.ne_of_lt (h n hn))

/-- A fresh `OrTerminator` over iteration terminators first returns true at
the minimum trip count: up to that call, each call returns true iff its
index equals the minimum. -/
theorem orCallResult_trips_at_min (ns : List ℕ) (hne : ns ≠ [])
    (hpos : ∀ n ∈ ns, 1 ≤ n) (k : ℕ) (hk1 : 1 ≤ k)
    (hkm : k ≤ minTrip ns) :
    orCallResult (ns.map IterationTerminator.new) k =
      decide (k = minTrip ns) := by
  have hminpos : 1 ≤ minTrip ns := hpos _ (minTrip_mem ns hne)
  have hstate := orCallState_uniform ns (k - 1)
    (fun n hn => lt_of_lt_of_le (by omega) (minTrip_le ns n hn))
  unfold orCallResult
  rw [hstate, orTerminate_uniform_result,
    show k - 1 + 1 = k by omega]
  by_cases heq : k = minTrip ns
  · rw [heq]
    simp only [decide_eq_true_eq]
    have : List.any ns (fun n => minTrip ns == n) = true :=
      List.any_eq_true.mpr ⟨minTrip ns, minTrip_mem ns hne, by simp⟩
    simp [this]
  · have hlt : k < minTrip ns := lt_of_le_of_ne hkm heq
    have : List.any ns (fun n => k == n) = false := by
      rw [List.any_eq_false]
      intro n hn
      have := lt_of_lt_of_le hlt (minTrip_le ns n hn)
      simp only [beq_iff_eq]
      omega
    simp [this, heq]

/-- `Iterator::any` short-circuits: when the first sub-criterion trips, the
composite returns true immediately and the later sub-criteria are not
evaluated — their counters stay untouched. -/
theorem orTerminate_short_circuit (n it : ℕ) (ts : List IterationTerminator)
    (h : (it + 1 == n) = true) :
    orTerminate (⟨n, it⟩ :: ts) = (true, ⟨n, it + 1⟩ :: ts) := by
  simp [orTerminate, IterationTerminator.terminate, h]

/-- `Iterator::all` short-circuits: when the first sub-criterion returns
false, the composite returns false immediately and the later sub-criteria
are not evaluated — their counters stay untouched. -/
theorem andTerminate_short_circuit (n it : ℕ)
    (ts : List IterationTerminator) (h : (it + 1 == n) = false) :
    andTerminate (⟨n, it⟩ :: ts) = (false, ⟨n, it + 1⟩ :: ts) := by
  simp [andTerminate, IterationTerminator.terminate, h]

/-- Sub-criteria states of the `AndTerminator` over trip counts 1 and 2:
after the first call the counters are 1 and 1; from then on only the first
sub-criterion is evaluated (it returns false, short-circuiting the
conjunction), so the second counter stays at 1 forever. -/
theorem andCallState_one_two (j : ℕ) (hj : 1 ≤ j) :
    andCallState [IterationTerminator.new 1, IterationTerminator.new 2] j =
      [⟨1, j⟩, ⟨2, 1⟩] := by
  induction j with
  | zero => omega
  | succ j ih =>
    rcases Nat.eq_zero_or_pos j with rfl | hpos
    · decide
    · show (andTerminate (andCallState
        [IterationTerminator.new 1, IterationTerminator.new 2] j)).2 = _
      rw [ih hpos]
      have hb : (j + 1 == 1) = false := by
        simp only [beq_eq_false_iff_ne, ne_eq]
        omega
      rw [andTerminate_short_circuit 1 j [⟨2, 1⟩] hb]

/-- The `AndTerminator` over iteration terminators with trip counts 1 and 2
never returns true: the first sub-criterion is true only on call 1, where
the second is still false, and false on every later call. -/
theorem andCallResult_one_two_never (k : ℕ) (hk : 1 ≤ k) :
    andCallResult [IterationTerminator.new 1, IterationTerminator.new 2] k =
      false := by
  rcases Nat.lt_or_ge k 2 with h2 | h2
  · have hk1 : k = 1 := by omega
    rw [hk1]
    decide
  · unfold andCallResult
    rw [andCallState_one_two (k - 1) (by omega)]
    have hb : (k - 1 + 1 == 1) = false := by
      simp only [beq_eq_false_iff_ne, ne_eq]
      omega
    rw [andTerminate_short_circuit 1 (k - 1) [⟨2, 1⟩] hb]

/-- C4 (amended): over iteration-terminator sub-criteria, a fresh
`OrTerminator` first returns true exactly at the minimum of the trip
counts; but composite `terminate()` calls short-circuit (Rust
`Iterator::any` / `Iterator::all`): once an earlier sub-criterion decides
the result, later sub-criteria are not evaluated and their counters do not
advance, and an `AndTerminator` does not trip at the maximum — over trip
counts 1 and 2 it never returns true, because each `IterationTerminator`
is true only on exactly its own trip call. -/
theorem C4_composite_terminators (ns : List ℕ) (hne : ns ≠ [])
    (hpos : ∀ n ∈ ns, 1 ≤ n) (k : ℕ) (hk1 : 1 ≤ k)
    (hkm : k ≤ minTrip ns) :
    (orCallResult (ns.map IterationTerminator.new) k =
      decide (k = minTrip ns)) ∧
    (∀ (n it : ℕ) (ts : List IterationTerminator), (it + 1 == n) = true →
      orTerminate (⟨n, it⟩ :: ts) = (true, ⟨n, it + 1⟩ :: ts)) ∧
    (∀ (n it : ℕ) (ts : List IterationTerminator), (it + 1 == n) = false →
      andTerminate (⟨n, it⟩ :: ts) = (false, ⟨n, it + 1⟩ :: ts)) ∧
    (∀ j, 1 ≤ j →
      andCallResult [IterationTerminator.new 1, IterationTerminator.new 2] j
        = false) :=
  ⟨orCallResult_trips_at_min ns hne hpos k hk1 hkm,
    orTerminate_short_circuit, andTerminate_short_circuit,
    andCallResult_one_two_never⟩

/-- Witness for C4: over trip counts `[2, 3]` (minimum 2), the second
`OrTerminator` call is the first to return true; a tripping head
sub-criterion leaves the tail counters untouched; and the `AndTerminator`
over trip counts 1 and 2 is false on call 2. -/
theorem C4_composite_terminators_witness :
    (orCallResult ([2, 3].map IterationTerminator.new) 2 =
      decide (2 = minTrip [2, 3])) ∧
    (orTerminate (⟨1, 0⟩ :: [⟨5, 0⟩]) = (true, ⟨1, 1⟩ :: [⟨5, 0⟩])) ∧
    (andCallResult [IterationTerminator.new 1, IterationTerminator.new 2] 2
      = false) := by
  have h := C4_composite_terminators [2, 3] (by decide) (by decide) 2
    (by decide) (by decide)
  exact ⟨h.1, h.2.1 1 0 [⟨5, 0⟩] (by decide), h.2.2.2 2 (by decide)⟩

/-- Counterexample for C4 as stated: the `AndTerminator` over iteration
terminators with trip counts 1 and 2 returns false on call 2 — the maximum
of the trip counts, where the claim says it first returns true — and after
one `OrTerminator` call over the same sub-criteria the second sub-criterion
counter is still 0: `Iterator::any` short-circuited after the first
sub-criterion tripped, so sub-criteria are not evaluated unconditionally. -/
theorem C4_counterexample_and_max_and_short_circuit :
    (andCallResult [IterationTerminator.new 1, IterationTerminator.new 2] 2
      = false) ∧
    (orCallState [IterationTerminator.new 1, IterationTerminator.new 2] 1 =
      [⟨1, 1⟩, ⟨2, 0⟩]) := by decide

/-- C9 (amended): `SABuilder::build` and `LNSBuilder::build` panic iff any
of their mandatory components is missing (for SA: rng, selector,
terminator and temperature; for LNS: both selectors, terminator and rng),
surfacing the failure at construction time; but `VNSBuilder::build`
(src/vns.rs) succeeds iff selector and terminator are present — a missing
rng is not a failure, it silently falls back to `rand::thread_rng()`. -/
theorem C9_builder_mandatory_components
    {Op Des Rep Selector Terminator Rng : Type}
    (bsa : SABuilder Op Selector Terminator Rng)
    (blns : LNSBuilder Des Rep Selector Terminator Rng)
    (bvns : VNSBuilder Op Selector Terminator Rng) (thread_rng : Rng) :
    ((SABuilder.build bsa).isSome = true ↔
      bsa.rng.isSome = true ∧ bsa.selector.isSome = true ∧
      bsa.terminator.isSome = true ∧ bsa.temperature.isSome = true) ∧
    ((LNSBuilder.build blns).isSome = true ↔
      blns.selector_destroyer.isSome = true ∧
      blns.selector_repairer.isSome = true ∧
      blns.terminator.isSome = true ∧ blns.rng.isSome = true) ∧
    ((VNSBuilder.build thread_rng bvns).isSome = true ↔
      bvns.selector.isSome = true ∧ bvns.terminator.isSome = true) := by
  refine ⟨?_, ?_, ?_⟩
  · obtain ⟨s, t, ops, r, temp⟩ := bsa
    cases r <;> cases s <;> cases t <;> cases temp <;>
      simp [SABuilder.build, Option.isSome]
  · obtain ⟨d, p, t, sd, sp, r⟩ := blns
    cases sd <;> cases sp <;> cases t <;> cases r <;>
      simp [LNSBuilder.build, Option.isSome]
  · obtain ⟨ops, s, t, r⟩ := bvns
    cases s <;> cases t <;>
      simp [VNSBuilder.build, Option.isSome]

/-- Witness for C9: a fully specified SA builder builds, an SA builder
missing only its terminator does not, and a VNS builder with selector and
terminator present builds. -/
theorem C9_builder_mandatory_components_witness :
    ((SABuilder.build
      (⟨some (), some (), [], some (), some 1⟩ :
        SABuilder Unit Unit Unit Unit)).isSome = true) ∧
    (¬ (SABuilder.build
      (⟨some (), none, [], some (), some 1⟩ :
        SABuilder Unit Unit Unit Unit)).isSome = true) ∧
    ((VNSBuilder.build ()
      (⟨[], some (), some (), some ()⟩ :
        VNSBuilder Unit Unit Unit Unit)).isSome = true) := by
  refine ⟨?_, ?_, ?_⟩
  · exact (C9_builder_mandatory_components
      (⟨some (), some (), [], some (), some 1⟩ :
        SABuilder Unit Unit Unit Unit)
      (⟨[], [], some (), some (), some (), some ()⟩ :
        LNSBuilder Unit Unit Unit Unit Unit)
      (⟨[], some (), some (), some ()⟩ : VNSBuilder Unit Unit Unit Unit)
      ()).1.mpr ⟨rfl, rfl, rfl, rfl⟩
  · intro h
    have := (C9_builder_mandatory_components
      (⟨some (), none, [], some (), some 1⟩ :
        SABuilder Unit Unit Unit Unit)
      (⟨[], [], some (), some (), some (), some ()⟩ :
        LNSBuilder Unit Unit Unit Unit Unit)
      (⟨[], some (), some (), some ()⟩ : VNSBuilder Unit Unit Unit Unit)
      ()).1.mp h
    exact absurd this.2.2.1 (by simp [Option.isSome])
  · exact (C9_builder_mandatory_components
      (⟨some (), some (), [], some (), some 1⟩ :
        SABuilder Unit Unit Unit Unit)
      (⟨[], [], some (), some (), some (), some ()⟩ :
        LNSBuilder Unit Unit Unit Unit Unit)
      (⟨[], some (), some (), some ()⟩ : VNSBuilder Unit Unit Unit Unit)
      ()).2.2.mpr ⟨rfl, rfl⟩

/-- Counterexample for C9 as stated: a VNS builder with selector and
terminator present but no rng builds successfully — `VNSBuilder::build`
substitutes `rand::thread_rng()` for a missing rng instead of panicking, so
a missing rng is not a hard construction-time failure for VNS. -/
theorem C9_counterexample_vns_builds_without_rng :
    VNSBuilder.build ()
      (⟨[], some (), some (), none⟩ : VNSBuilder Unit Unit Unit Unit) =
      some ⟨[], (), (), ()⟩ := rfl

end Netaheuristics
